import Mathlib

/-!
Verification of the data-extraction-and-categorization pipeline of
`ecs_to_terraform_generator.py` (class `ECSToTerraformGenerator`).

The Python code is shallowly embedded: dictionaries become insertion-ordered
association lists (`List (String × _)`) with Python `dict` semantics
(`pyLookup`, `pyInsert`, `pyUpdate`), strings are Lean `String`s with
hand-rolled, structurally recursive versions of the Python string operations
the code uses (`in`, `split`, `replace`, `lower`, `upper`, `startswith`),
and JSON records are structures holding exactly the fields the embedded
functions read (`.get` with a default becomes `Option.getD`; a record field
the code never reads is not modelled).  Presentation-only metadata (the
`description` strings of extracted variables) is omitted; `value`, `source`
and `sensitive` are modelled.
-/

/-! ### Python semantics helpers -/

/-- All suffixes of a list, longest first (used to express Python's
substring test `needle in haystack`). -/
def suffixesOf : List Char → List (List Char)
  | [] => [[]]
  | c :: rest => (c :: rest) :: suffixesOf rest

/-- Python `pat in s` (substring containment). -/
def strContains (s pat : String) : Bool :=
  (suffixesOf s.data).any (fun t => pat.data.isPrefixOf t)

/-- Python `s.startswith(p)`. -/
def pyStartsWith (s p : String) : Bool :=
  p.data.isPrefixOf s.data

/-- ASCII lower-casing of one character (the strings the generator
lower-cases are ASCII). -/
def pyCharLower (c : Char) : Char :=
  if 'A' ≤ c ∧ c ≤ 'Z' then Char.ofNat (c.toNat + 32) else c

/-- ASCII upper-casing of one character. -/
def pyCharUpper (c : Char) : Char :=
  if 'a' ≤ c ∧ c ≤ 'z' then Char.ofNat (c.toNat - 32) else c

/-- Python `s.lower()`. -/
def pyLower (s : String) : String :=
  ⟨s.data.map pyCharLower⟩

/-- Python `s.upper()`. -/
def pyUpper (s : String) : String :=
  ⟨s.data.map pyCharUpper⟩

/-- Python `s.split(sep)` on a one-character separator:
`"".split(sep) = [""]`, separators at the ends produce empty segments. -/
def splitList (sep : Char) : List Char → List (List Char)
  | [] => [[]]
  | c :: rest =>
    if c = sep then [] :: splitList sep rest
    else
      match splitList sep rest with
      | [] => [[c]]
      | a :: as => (c :: a) :: as

/-- Worker for Python `s.replace(pat, repl)` (all non-overlapping
occurrences, left to right).  The fuel argument (instantiated with the
length of the scanned list, which bounds the number of steps) keeps the
recursion structural. -/
def replaceFuel (pat repl : List Char) : Nat → List Char → List Char
  | _, [] => []
  | 0, l => l
  | fuel + 1, c :: rest =>
    if pat.isPrefixOf (c :: rest) then
      repl ++ replaceFuel pat repl fuel (rest.drop (pat.length - 1))
    else
      c :: replaceFuel pat repl fuel rest

/-- Python `s.replace(pat, repl)` for a non-empty pattern (every call site
in the generator passes a non-empty pattern; an empty pattern is mapped to
the identity). -/
def pyReplace (s pat repl : String) : String :=
  match pat.data with
  | [] => s
  | _ :: _ => ⟨replaceFuel pat.data repl.data s.data.length s.data⟩

/-! ### Python `dict` as an insertion-ordered association list -/

/-- `d.get(k)` / `d[k]`: first binding of the key. -/
def pyLookup {β : Type} : List (String × β) → String → Option β
  | [], _ => none
  | p :: rest, k => if p.1 = k then some p.2 else pyLookup rest k

/-- `d[k] = v`: replace the binding in place if the key is present,
otherwise append it. -/
def pyInsert {β : Type} : List (String × β) → String → β → List (String × β)
  | [], k, v => [(k, v)]
  | p :: rest, k, v => if p.1 = k then (k, v) :: rest else p :: pyInsert rest k v

/-- `d.update(other)`: insert every binding of `other`, in order. -/
def pyUpdate {β : Type} (m other : List (String × β)) : List (String × β) :=
  other.foldl (fun acc p => pyInsert acc p.1 p.2) m

/-- The keys of an association list are pairwise distinct (true of every
list built from `[]` by `pyInsert`, as real Python dicts are). -/
def keysUnique {β : Type} (m : List (String × β)) : Prop :=
  m.Pairwise (fun p q => p.1 ≠ q.1)

/-- First `some` produced by `f` along a list (Python `for`-loop with an
early `return`). -/
def firstSome {α β : Type} (f : α → Option β) : List α → Option β
  | [] => none
  | a :: rest =>
    match f a with
    | some b => some b
    | none => firstSome f rest

/-- `optOr a b`: `a` if it is `some`, else `b`. -/
def optOr {β : Type} : Option β → Option β → Option β
  | some a, _ => some a
  | none, b => b

/-! ### Data model

The record structures carry exactly the fields the verified extraction
functions read; `Option` marks a field Python reads with `.get` and a
`None`-able default. -/

/-- A value stored for an extracted Terraform variable. -/
inductive Value where
  | vint (n : Int)
  | vstr (s : String)
  | vbool (b : Bool)
  | vlist (l : List String)
  deriving DecidableEq, Repr

/-- One entry of `self.all_variables` (the `description` text is
presentation-only and not modelled). -/
structure VarEntry where
  value : Value
  source : String := ""
  sensitive : Bool := false
  deriving DecidableEq, Repr

/-- `self.all_variables`: the flat derived-variable mapping. -/
abbrev Store := List (String × VarEntry)

/-- One element of a service's `loadBalancers` list. -/
structure LoadBalancer where
  targetGroupArn : Option String := none
  containerName : Option String := none
  containerPort : Option Int := none
  deriving DecidableEq, Repr

/-- A service record (fields read by the verified claims; a missing
`loadBalancers` key and an empty list are both falsy in Python and are
modelled as `[]`). -/
structure ServiceConfig where
  desiredCount : Option Int := none
  loadBalancers : List LoadBalancer := []
  clusterArn : Option String := none
  deriving DecidableEq, Repr

/-- One element of a container definition's `environment` list. -/
structure EnvEntry where
  name : Option String := none
  value : Option String := none
  deriving DecidableEq, Repr

/-- A raw configuration value as read by the environment-variable
extraction (`value.get('environment', [])`). -/
structure ContainerVal where
  environment : List EnvEntry := []
  deriving DecidableEq, Repr

/-- Python truthiness of `d.get(k)` for a string field: present and
non-empty. -/
def envTruthy : Option String → Bool
  | none => false
  | some s => s ≠ ""

/-! ### `_sanitize_name` -/

/-- `re.sub(r'[^a-zA-Z0-9_]', '_', ·)` applied to one character. -/
def sanitizeChar (c : Char) : Char :=
  if c.isAlphanum || c = '_' then c else '_'

/-- Python `sanitized and sanitized[0].isdigit()`: the string is non-empty
and begins with a digit. -/
def startsWithDigit : List Char → Bool
  | [] => false
  | c :: _ => c.isDigit

/-- `_sanitize_name`: replace every character outside `[A-Za-z0-9_]` with
`_`; prefix `_` if the result is non-empty and starts with a digit. -/
def sanitize (name : String) : String :=
  if startsWithDigit (name.data.map sanitizeChar) then ⟨'_' :: name.data.map sanitizeChar⟩
  else ⟨name.data.map sanitizeChar⟩

/-! ### Autoscaling derivation (`_extract_variables_from_service`,
the `CALCULATE INTELLIGENT AUTOSCALING` block) -/

/-- The `(min_capacity, max_capacity)` pair computed at lines 721-728. -/
def autoscalingCaps (cfg : ServiceConfig) : Int × Int :=
  let desiredCount := cfg.desiredCount.getD 1
  let hasLoadBalancer := !cfg.loadBalancers.isEmpty
  let minCapacity := max 1 desiredCount
  let maxCapacityBase := max 3 (desiredCount * 2)
  let maxCapacity :=
    if hasLoadBalancer then max maxCapacityBase (desiredCount * 3) else maxCapacityBase
  (minCapacity, maxCapacity)

/-- Lines 721-745: store `{base}_min_capacity` and `{base}_max_capacity`
into `self.all_variables`. -/
def extractAutoscaling (serviceName : String) (cfg : ServiceConfig) (store : Store) : Store :=
  let caps := autoscalingCaps cfg
  let baseName := sanitize serviceName
  pyInsert
    (pyInsert store (baseName ++ "_min_capacity")
      { value := .vint caps.1, source := "Calculated:min_capacity" })
    (baseName ++ "_max_capacity")
    { value := .vint caps.2, source := "Calculated:max_capacity" }

/-! ### Helper lemmas about the dict model -/

theorem pyLookup_pyInsert_self {β : Type} (m : List (String × β)) (k : String) (v : β) :
    pyLookup (pyInsert m k v) k = some v := by
  induction m with
  | nil => simp [pyInsert, pyLookup]
  | cons p rest ih =>
    by_cases h : p.1 = k <;> simp [pyInsert, pyLookup, h, ih]

theorem pyLookup_pyInsert_ne {β : Type} (m : List (String × β)) (k : String) (v : β)
    (n : String) (h : n ≠ k) :
    pyLookup (pyInsert m k v) n = pyLookup m n := by
  have h5 : ¬ (k = n) := fun hh => h hh.symm
  induction m with
  | nil => simp [pyInsert, pyLookup, h5]
  | cons p rest ih =>
    simp only [pyInsert]
    by_cases h2 : p.1 = k
    · rw [if_pos h2]
      have h6 : ¬ (p.1 = n) := by rw [h2]; exact h5
      simp only [pyLookup, if_neg h5, if_neg h6]
    · rw [if_neg h2]
      simp only [pyLookup]
      by_cases h4 : p.1 = n
      · rw [if_pos h4, if_pos h4]
      · rw [if_neg h4, if_neg h4]; exact ih

theorem string_append_data (s t : String) : (s ++ t).data = s.data ++ t.data := rfl

theorem string_data_injective {t u : String} (h : t.data = u.data) : t = u := by
  cases t
  cases u
  exact congrArg String.mk h

theorem string_append_right_ne (s t u : String) (h : t ≠ u) : s ++ t ≠ s ++ u := by
  intro hc
  apply h
  have hd : s.data ++ t.data = s.data ++ u.data := congrArg String.data hc
  exact string_data_injective (List.append_cancel_left hd)

/-! ### Theorems for C1 and C4 -/

/-- C1: for every service record the extractor stores
`min_capacity = max(1, desired_count)` and
`max_capacity = max(3, desired_count * 2)`, raised to
`max(max_capacity, desired_count * 3)` when at least one load balancer is
present, with `desired_count` defaulting to 1 when absent; a service with
`desiredCount = 1` and no load balancer yields `(1, 3)` and one with a load
balancer and `desiredCount = 4` yields `(4, 12)`. -/
theorem c1_autoscaling_derivation (serviceName : String) (cfg : ServiceConfig) (store : Store) :
    pyLookup (extractAutoscaling serviceName cfg store) (sanitize serviceName ++ "_min_capacity")
      = some { value := .vint (max 1 (cfg.desiredCount.getD 1)),
               source := "Calculated:min_capacity", sensitive := false }
  ∧ pyLookup (extractAutoscaling serviceName cfg store) (sanitize serviceName ++ "_max_capacity")
      = some { value := .vint (if cfg.loadBalancers.isEmpty
                 then max 3 (cfg.desiredCount.getD 1 * 2)
                 else max (max 3 (cfg.desiredCount.getD 1 * 2)) (cfg.desiredCount.getD 1 * 3)),
               source := "Calculated:max_capacity", sensitive := false }
  ∧ autoscalingCaps { desiredCount := some 1 } = (1, 3)
  ∧ autoscalingCaps { desiredCount := some 4, loadBalancers := [{}] } = (4, 12) := by
  have hne : sanitize serviceName ++ "_min_capacity" ≠ sanitize serviceName ++ "_max_capacity" := by
    apply string_append_right_ne
    decide
  refine ⟨?_, ?_, by decide, by decide⟩
  · rw [extractAutoscaling, pyLookup_pyInsert_ne _ _ _ _ hne, pyLookup_pyInsert_self]
    simp [autoscalingCaps]
  · rw [extractAutoscaling, pyLookup_pyInsert_self]
    by_cases h : cfg.loadBalancers.isEmpty <;> simp [autoscalingCaps, h]

/-- C4: for every service and every non-negative `desired_count`, with or
without load balancers, the derived `min_capacity` does not exceed the
derived `max_capacity`. -/
theorem c4_min_le_max (cfg : ServiceConfig) (h : 0 ≤ cfg.desiredCount.getD 1) :
    (autoscalingCaps cfg).1 ≤ (autoscalingCaps cfg).2 := by
  rcases cfg with ⟨dc, lbs, arn⟩
  rcases dc with _ | d <;>
    cases hl : lbs.isEmpty <;>
      simp_all [autoscalingCaps, max_le_iff, le_max_iff] <;> omega

/-- Witness for C4 at a concrete service configuration. -/
theorem c4_min_le_max_witness :
    0 ≤ (({ desiredCount := some 2 } : ServiceConfig).desiredCount.getD 1)
  ∧ (autoscalingCaps { desiredCount := some 2 }).1
      ≤ (autoscalingCaps { desiredCount := some 2 }).2 :=
  ⟨by decide, c4_min_le_max { desiredCount := some 2 } (by decide)⟩

/-! ### Theorem for C9 -/

theorem sanitizeChar_idem (c : Char) : sanitizeChar (sanitizeChar c) = sanitizeChar c := by
  by_cases h : c.isAlphanum || c = '_'
  · simp [sanitizeChar, h]
  · simp [sanitizeChar, h]

theorem map_sanitizeChar_idem (l : List Char) :
    (l.map sanitizeChar).map sanitizeChar = l.map sanitizeChar := by
  induction l with
  | nil => rfl
  | cons c t ih => simp [List.map, sanitizeChar_idem, ih]

/-- C9: `_sanitize_name` is idempotent. -/
theorem c9_sanitize_idempotent (s : String) : sanitize (sanitize s) = sanitize s := by
  by_cases h : startsWithDigit (s.data.map sanitizeChar)
  · have h1 : sanitize s = ⟨'_' :: s.data.map sanitizeChar⟩ := by
      rw [sanitize, if_pos h]
    rw [h1]
    unfold sanitize
    have hm : (String.data ⟨'_' :: s.data.map sanitizeChar⟩).map sanitizeChar
        = '_' :: s.data.map sanitizeChar := by
      show ('_' :: s.data.map sanitizeChar).map sanitizeChar = _
      rw [List.map_cons, map_sanitizeChar_idem, show sanitizeChar '_' = '_' from by decide]
    rw [hm]
    have hfalse : startsWithDigit ('_' :: s.data.map sanitizeChar) = false := rfl
    simp [hfalse]
  · have h1 : sanitize s = ⟨s.data.map sanitizeChar⟩ := by
      rw [sanitize, if_neg h]
    rw [h1]
    unfold sanitize
    have hm : (String.data ⟨s.data.map sanitizeChar⟩).map sanitizeChar
        = s.data.map sanitizeChar := by
      show (s.data.map sanitizeChar).map sanitizeChar = _
      exact map_sanitizeChar_idem _
    rw [hm]
    rw [if_neg h]

/-! ### `_extract_region_from_arns` -/

/-- The body of the loop in `_extract_region_from_arns`: the region a
single service record yields, if any (`clusterArn` read with default `''`;
the record is used only when the ARN is truthy, contains `arn:aws:` and has
at least 4 colon-separated parts). -/
def regionFromService (p : String × ServiceConfig) : Option String :=
  if (p.2.clusterArn.getD "" != "") && strContains (p.2.clusterArn.getD "") "arn:aws:" then
    if (splitList ':' (p.2.clusterArn.getD "").data).length ≥ 4 then
      some ⟨(splitList ':' (p.2.clusterArn.getD "").data).getD 3 []⟩
    else none
  else none

/-- `_extract_region_from_arns`: first region found over the service map,
default `us-east-1`. -/
def extractRegionFromArns (services : List (String × ServiceConfig)) : String :=
  match firstSome regionFromService services with
  | some region => region
  | none => "us-east-1"

/-- Claim C3, stated in the spec's words: an ARN yields a region iff it
contains `arn:aws:` and splits into at least four colon-separated parts, in
which case the region is its 4th colon-segment. -/
def claimRegionOfArn (arn : String) : Option String :=
  if strContains arn "arn:aws:" && decide ((splitList ':' arn.data).length ≥ 4) then
    some ⟨(splitList ':' arn.data).getD 3 []⟩
  else none

/-! ### `_extract_container_env_values_direct` -/

/-- `_extract_container_env_values_direct`: collect `name -> value` from
the `environment` lists of all raw entries whose key contains the service
name and `container_definition`; an entry contributes only when both
`name` and `value` are truthy. -/
def extractContainerEnvValuesDirect (ecsData : List (String × ContainerVal))
    (serviceName : String) : List (String × String) :=
  ecsData.foldl (fun envValues kv =>
    if strContains kv.1 serviceName && strContains kv.1 "container_definition" then
      kv.2.environment.foldl (fun acc e =>
        if envTruthy e.name && envTruthy e.value then
          pyInsert acc (e.name.getD "") (e.value.getD "")
        else acc) envValues
    else envValues) []

/-- Remove from every container the environment entries whose name or
value is missing or empty (the entries claim C10 says are dropped). -/
def scrubEnvEntries (ecsData : List (String × ContainerVal)) : List (String × ContainerVal) :=
  ecsData.map (fun kv =>
    (kv.1, { environment := kv.2.environment.filter (fun e => envTruthy e.name && envTruthy e.value) }))

/-! ### `_derive_environment_from_app_env` and `_derive_environment` -/

/-- The `APP_ENV` synonym mapping of `_derive_environment_from_app_env`
(lines 313-322), applied to the already-lowercased value. -/
def normalizeAppEnv (v : String) : String :=
  if v ∈ ["dev", "development", "devl"] then "devl"
  else if v ∈ ["test", "testing", "tst"] then "test"
  else if v ∈ ["stage", "staging", "stg"] then "stage"
  else if v ∈ ["prod", "production"] then "prod"
  else v

/-- `_derive_environment`: substring matching on the lower-cased cluster
name. -/
def deriveEnvironment (clusterName : String) : String :=
  if strContains (pyLower clusterName) "prod" then "prod"
  else if strContains (pyLower clusterName) "test" then "test"
  else if strContains (pyLower clusterName) "stage" || strContains (pyLower clusterName) "staging" then "stage"
  else if strContains (pyLower clusterName) "uat" then "uat"
  else "devl"

/-- The scan of `_derive_environment_from_app_env`: the lower-cased value
of the first `environment` entry named `APP_ENV` over all container
definitions (in iteration order), if any. -/
def findAppEnv (containers : List (String × ContainerVal)) : Option String :=
  firstSome (fun kv =>
    firstSome (fun e =>
      if e.name = some "APP_ENV" then some (pyLower (e.value.getD "")) else none)
      kv.2.environment) containers

/-- `_derive_environment_from_app_env`. -/
def deriveEnvironmentFromAppEnv (containers : List (String × ContainerVal))
    (clusterName : String) : String :=
  match findAppEnv containers with
  | some v => normalizeAppEnv v
  | none => deriveEnvironment clusterName

/-- Claim C2's synonym table, as listed in the spec. -/
def claimSynonyms : List (String × String) :=
  [("dev", "devl"), ("development", "devl"), ("devl", "devl"),
   ("test", "test"), ("testing", "test"), ("tst", "test"),
   ("stage", "stage"), ("staging", "stage"), ("stg", "stage"),
   ("prod", "prod"), ("production", "prod")]

/-- Claim C2's normalization: look the value up in the synonym table, pass
unmapped values through. -/
def claimNormalize (v : String) : String :=
  (pyLookup claimSynonyms v).getD v

/-- Claim C2's fallback, taken literally: substring-match the cluster name
as given (no lower-casing). -/
def claimFallbackLiteral (clusterName : String) : String :=
  if strContains clusterName "prod" then "prod"
  else if strContains clusterName "test" then "test"
  else if strContains clusterName "stage" || strContains clusterName "staging" then "stage"
  else if strContains clusterName "uat" then "uat"
  else "devl"

/-- Claim C2 taken literally: normalize the lowercased `APP_ENV` value
through the synonym table, else substring-match the cluster name as
given. -/
def claimEnvironmentLiteral (containers : List (String × ContainerVal))
    (clusterName : String) : String :=
  match findAppEnv containers with
  | some v => claimNormalize v
  | none => claimFallbackLiteral clusterName

/-- Claim C2 as amended: the fallback substring-matches the lower-cased
cluster name. -/
def claimEnvironmentAmended (containers : List (String × ContainerVal))
    (clusterName : String) : String :=
  match findAppEnv containers with
  | some v => claimNormalize v
  | none => claimFallbackLiteral (pyLower clusterName)

/-! ### Theorems for C3 -/

theorem firstSome_congr {α β : Type} (f g : α → Option β) (h : ∀ a, f a = g a)
    (l : List α) : firstSome f l = firstSome g l := by
  induction l with
  | nil => rfl
  | cons a rest ih => simp only [firstSome, h a, ih]

theorem firstSome_eq_head_filterMap {α β : Type} (f : α → Option β) (l : List α) :
    firstSome f l = (l.filterMap f).head? := by
  induction l with
  | nil => rfl
  | cons a rest ih =>
    cases hf : f a <;> simp [firstSome, List.filterMap_cons, hf, ih]

theorem headD_eq_head_getD {α : Type} (l : List α) (d : α) :
    l.headD d = (l.head?).getD d := by
  cases l <;> rfl

theorem regionFromService_eq_claim (p : String × ServiceConfig) :
    regionFromService p = claimRegionOfArn (p.2.clusterArn.getD "") := by
  unfold regionFromService claimRegionOfArn
  have hkey : ((p.2.clusterArn.getD "" != "") && strContains (p.2.clusterArn.getD "") "arn:aws:")
      = strContains (p.2.clusterArn.getD "") "arn:aws:" := by
    by_cases h0 : p.2.clusterArn.getD "" = ""
    · rw [h0]; decide
    · have h1 : (p.2.clusterArn.getD "" != "") = true := by simpa using h0
      rw [h1, Bool.true_and]
  rw [hkey]
  by_cases hc : strContains (p.2.clusterArn.getD "") "arn:aws:" = true <;>
    by_cases hl : (splitList ':' (p.2.clusterArn.getD "").data).length ≥ 4 <;>
      simp [hc, hl]

/-- C3: `primary_region` is the 4th colon-segment of the first service
`clusterArn` that contains `arn:aws:` and has at least four colon-separated
parts, defaulting to `us-east-1` when no service carries such an ARN; the
ARN `arn:aws:ecs:eu-west-1:1234:cluster/x` yields `eu-west-1`. -/
theorem c3_primary_region (services : List (String × ServiceConfig)) :
    extractRegionFromArns services
      = ((services.filterMap (fun p => claimRegionOfArn (p.2.clusterArn.getD ""))).headD "us-east-1")
  ∧ extractRegionFromArns
      [("x", { clusterArn := some "arn:aws:ecs:eu-west-1:1234:cluster/x" })] = "eu-west-1" := by
  constructor
  · unfold extractRegionFromArns
    rw [firstSome_congr _ _ regionFromService_eq_claim, firstSome_eq_head_filterMap,
      headD_eq_head_getD]
    cases (services.filterMap (fun p => claimRegionOfArn (p.2.clusterArn.getD ""))).head? <;> rfl
  · decide

/-! ### Theorems for C10 -/

theorem pyLookup_mem {β : Type} (m : List (String × β)) (n : String) (v : β)
    (h : pyLookup m n = some v) : (n, v) ∈ m := by
  induction m with
  | nil => simp [pyLookup] at h
  | cons p rest ih =>
    by_cases hp : p.1 = n
    · rw [pyLookup, if_pos hp] at h
      have hv : p.2 = v := Option.some.inj h
      have hpnv : p = (n, v) := by
        cases p
        cases hp
        cases hv
        rfl
      rw [← hpnv]
      exact List.mem_cons_self _ _
    · rw [pyLookup, if_neg hp] at h
      exact List.mem_cons_of_mem _ (ih h)

theorem pyInsert_forall {β : Type} (P : String × β → Prop) (m : List (String × β))
    (k : String) (v : β) (hm : ∀ q ∈ m, P q) (hkv : P (k, v)) :
    ∀ q ∈ pyInsert m k v, P q := by
  induction m with
  | nil =>
    intro q hq
    simp [pyInsert] at hq
    rw [hq]
    exact hkv
  | cons p rest ih =>
    intro q hq
    rw [pyInsert] at hq
    by_cases hp : p.1 = k
    · rw [if_pos hp] at hq
      rcases List.mem_cons.mp hq with h | h
      · rw [h]; exact hkv
      · exact hm q (List.mem_cons_of_mem _ h)
    · rw [if_neg hp] at hq
      rcases List.mem_cons.mp hq with h | h
      · rw [h]; exact hm p (List.mem_cons_self _ _)
      · exact ih (fun q hq => hm q (List.mem_cons_of_mem _ hq)) q h

theorem envTruthy_getD_ne (o : Option String) (h : envTruthy o = true) : o.getD "" ≠ "" := by
  cases o with
  | none => simp [envTruthy] at h
  | some s => simpa [envTruthy] using h

theorem envFold_forall_nonempty (env : List EnvEntry) (acc : List (String × String))
    (hacc : ∀ q ∈ acc, q.1 ≠ "" ∧ q.2 ≠ "") :
    ∀ q ∈ env.foldl (fun acc e =>
        if envTruthy e.name && envTruthy e.value then
          pyInsert acc (e.name.getD "") (e.value.getD "")
        else acc) acc,
      q.1 ≠ "" ∧ q.2 ≠ "" := by
  induction env generalizing acc with
  | nil => exact hacc
  | cons e rest ih =>
    rw [List.foldl_cons]
    by_cases he : (envTruthy e.name && envTruthy e.value) = true
    · rw [if_pos he]
      have he2 := he
      simp only [Bool.and_eq_true] at he2
      rcases he2 with ⟨hn, hv⟩
      exact ih _ (pyInsert_forall _ acc _ _ hacc ⟨envTruthy_getD_ne _ hn, envTruthy_getD_ne _ hv⟩)
    · rw [if_neg he]
      exact ih _ hacc

theorem extractDirect_forall_nonempty (ecsData : List (String × ContainerVal))
    (serviceName : String) :
    ∀ q ∈ extractContainerEnvValuesDirect ecsData serviceName, q.1 ≠ "" ∧ q.2 ≠ "" := by
  unfold extractContainerEnvValuesDirect
  have main : ∀ (data : List (String × ContainerVal)) (acc : List (String × String)),
      (∀ q ∈ acc, q.1 ≠ "" ∧ q.2 ≠ "") →
      ∀ q ∈ data.foldl (fun envValues kv =>
          if strContains kv.1 serviceName && strContains kv.1 "container_definition" then
            kv.2.environment.foldl (fun acc e =>
              if envTruthy e.name && envTruthy e.value then
                pyInsert acc (e.name.getD "") (e.value.getD "")
              else acc) envValues
          else envValues) acc,
        q.1 ≠ "" ∧ q.2 ≠ "" := by
    intro data
    induction data with
    | nil => intro acc hacc; exact hacc
    | cons kv rest ih =>
      intro acc hacc
      rw [List.foldl_cons]
      by_cases hk : (strContains kv.1 serviceName && strContains kv.1 "container_definition") = true
      · rw [if_pos hk]
        exact ih _ (envFold_forall_nonempty _ _ hacc)
      · rw [if_neg hk]
        exact ih _ hacc
  exact main ecsData [] (by intro q hq; simp at hq)

theorem envFold_filter_eq (env : List EnvEntry) (acc : List (String × String)) :
    (env.filter (fun e => envTruthy e.name && envTruthy e.value)).foldl
        (fun acc e =>
          if envTruthy e.name && envTruthy e.value then
            pyInsert acc (e.name.getD "") (e.value.getD "")
          else acc) acc
      = env.foldl
        (fun acc e =>
          if envTruthy e.name && envTruthy e.value then
            pyInsert acc (e.name.getD "") (e.value.getD "")
          else acc) acc := by
  induction env generalizing acc with
  | nil => rfl
  | cons e rest ih =>
    by_cases he : (envTruthy e.name && envTruthy e.value) = true
    · rw [List.filter_cons, if_pos he, List.foldl_cons, List.foldl_cons, ih]
    · rw [List.filter_cons, if_neg he, List.foldl_cons, if_neg he, ih]

/-- C10: the direct container-environment collection keeps a name/value
pair only when both are present and non-empty: scrubbing away the entries
with a missing/empty name or value changes nothing, and every collected
pair has a non-empty name and value. -/
theorem c10_env_collection_requires_name_and_value
    (ecsData : List (String × ContainerVal)) (serviceName : String) :
    extractContainerEnvValuesDirect (scrubEnvEntries ecsData) serviceName
      = extractContainerEnvValuesDirect ecsData serviceName
  ∧ ∀ n v, pyLookup (extractContainerEnvValuesDirect ecsData serviceName) n = some v →
      n ≠ "" ∧ v ≠ "" := by
  constructor
  · unfold extractContainerEnvValuesDirect scrubEnvEntries
    rw [List.foldl_map]
    apply List.foldl_ext
    intro acc kv _
    by_cases hk : (strContains kv.1 serviceName && strContains kv.1 "container_definition") = true
    · rw [if_pos hk, if_pos hk]
      exact envFold_filter_eq _ _
    · rw [if_neg hk, if_neg hk]
  · intro n v h
    exact extractDirect_forall_nonempty ecsData serviceName (n, v) (pyLookup_mem _ _ _ h)

/-- Witness for C10: a collected pair has a non-empty name and value. -/
theorem c10_witness :
    pyLookup (extractContainerEnvValuesDirect
        [("svc/task_definition/container_definition/c",
          { environment := [{ name := some "FOO", value := some "bar" },
                            { name := some "EMPTY", value := some "" }] })] "svc") "FOO"
      = some "bar"
  ∧ ("FOO" ≠ "" ∧ "bar" ≠ "") :=
  ⟨by decide,
   (c10_env_collection_requires_name_and_value
      [("svc/task_definition/container_definition/c",
        { environment := [{ name := some "FOO", value := some "bar" },
                          { name := some "EMPTY", value := some "" }] })] "svc").2
     "FOO" "bar" (by decide)⟩

/-! ### Theorems for C2 -/

theorem normalizeAppEnv_eq_claim (v : String) : normalizeAppEnv v = claimNormalize v := by
  rcases eq_or_ne v "dev" with h | h1
  · subst h; decide
  rcases eq_or_ne v "development" with h | h2
  · subst h; decide
  rcases eq_or_ne v "devl" with h | h3
  · subst h; decide
  rcases eq_or_ne v "test" with h | h4
  · subst h; decide
  rcases eq_or_ne v "testing" with h | h5
  · subst h; decide
  rcases eq_or_ne v "tst" with h | h6
  · subst h; decide
  rcases eq_or_ne v "stage" with h | h7
  · subst h; decide
  rcases eq_or_ne v "staging" with h | h8
  · subst h; decide
  rcases eq_or_ne v "stg" with h | h9
  · subst h; decide
  rcases eq_or_ne v "prod" with h | h10
  · subst h; decide
  rcases eq_or_ne v "production" with h | h11
  · subst h; decide
  simp [normalizeAppEnv, claimNormalize, claimSynonyms, pyLookup,
    h1, h2, h3, h4, h5, h6, h7, h8, h9, h10, h11,
    Ne.symm h1, Ne.symm h2, Ne.symm h3, Ne.symm h4, Ne.symm h5, Ne.symm h6,
    Ne.symm h7, Ne.symm h8, Ne.symm h9, Ne.symm h10, Ne.symm h11]

/-- C2 counterexample: with no `APP_ENV` anywhere and cluster name `PROD`,
the code lower-cases the cluster name before substring matching and yields
`prod`, while the claim's literal fallback (substring matching on the
cluster name as given) yields `devl`. -/
theorem c2_counterexample :
    deriveEnvironmentFromAppEnv [] "PROD" = "prod"
  ∧ claimEnvironmentLiteral [] "PROD" = "devl"
  ∧ ("prod" : String) ≠ "devl" := by
  refine ⟨by decide, by decide, by decide⟩

/-- C2 (amended): the environment is the lowercased `APP_ENV` value of the
first such entry, normalized through the synonym table with unmapped
values passed through; with no `APP_ENV`, the LOWER-CASED cluster name is
substring-matched (prod / test / stage-or-staging / uat, else devl).
`APP_ENV = "Production"` yields `prod`, and with no `APP_ENV` the cluster
name `payments-prod-cluster` yields `prod`. -/
theorem c2_environment_amended (containers : List (String × ContainerVal))
    (clusterName : String) :
    deriveEnvironmentFromAppEnv containers clusterName
      = claimEnvironmentAmended containers clusterName
  ∧ deriveEnvironmentFromAppEnv
      [("c", { environment := [{ name := some "APP_ENV", value := some "Production" }] })] "x"
      = "prod"
  ∧ deriveEnvironmentFromAppEnv [] "payments-prod-cluster" = "prod" := by
  refine ⟨?_, by decide, by decide⟩
  unfold deriveEnvironmentFromAppEnv claimEnvironmentAmended
  cases findAppEnv containers with
  | none =>
    show deriveEnvironment clusterName = claimFallbackLiteral (pyLower clusterName)
    rfl
  | some v =>
    exact normalizeAppEnv_eq_claim v

/-! ### The global environment pass of `_extract_cluster_variables`
(lines 905-943) -/

/-- `env_name.lower().replace('.', '_')`. -/
def tfVarName (envName : String) : String :=
  pyReplace (pyLower envName) "." "_"

/-- The `source_category` chosen for a global environment variable
(lines 922-934). -/
def globalEnvSourceCategory (n : String) : String :=
  if pyStartsWith n "DT_" then "ContainerEnv"
  else if pyStartsWith n "APP_" then "ContainerEnv"
  else if n ∈ ["PRIVATE_BUCKET", "spring.profiles.active", "JAVA_TOOL_OPTIONS", "SM_SSL", "TW_CONTAINER_NAME"]
    then "ContainerEnv"
  else "GlobalEnv"

/-- The `all_variables` entry stored for a global environment variable
(lines 936-942). -/
def globalEnvEntry (n v : String) : VarEntry :=
  { value := .vstr v,
    source := globalEnvSourceCategory n ++ ":" ++ n,
    sensitive := strContains (pyUpper n) "TOKEN" || strContains (pyUpper n) "PASSWORD" }

/-- The `all_env_vars` dict: per-service collections merged in service
iteration order with `dict.update` (lines 907-910). -/
def mergedEnv (ecsData : List (String × ContainerVal)) (serviceNames : List String) :
    List (String × String) :=
  serviceNames.foldl
    (fun acc svc => pyUpdate acc (extractContainerEnvValuesDirect ecsData svc)) []

/-- One iteration of the storing loop (lines 913-943): skip `REGION`, skip
names already present, otherwise store. -/
def stepGlobalEnv (st : Store) (p : String × String) : Store :=
  if p.1 = "REGION" then st
  else if (pyLookup st (tfVarName p.1)).isSome then st
  else pyInsert st (tfVarName p.1) (globalEnvEntry p.1 p.2)

/-- The storing loop over all merged environment pairs. -/
def insertGlobalEnv (store : Store) (pairs : List (String × String)) : Store :=
  pairs.foldl stepGlobalEnv store

/-- The whole global environment pass. -/
def globalEnvPass (ecsData : List (String × ContainerVal)) (serviceNames : List String)
    (store : Store) : Store :=
  insertGlobalEnv store (mergedEnv ecsData serviceNames)

/-! ### Helper lemmas for C5 -/

theorem pyInsert_mem_cases {β : Type} (m : List (String × β)) (k : String) (v : β)
    (q : String × β) (hq : q ∈ pyInsert m k v) : q = (k, v) ∨ q ∈ m := by
  induction m with
  | nil =>
    simp [pyInsert] at hq
    exact Or.inl hq
  | cons p rest ih =>
    rw [pyInsert] at hq
    by_cases hp : p.1 = k
    · rw [if_pos hp] at hq
      rcases List.mem_cons.mp hq with h | h
      · exact Or.inl h
      · exact Or.inr (List.mem_cons_of_mem _ h)
    · rw [if_neg hp] at hq
      rcases List.mem_cons.mp hq with h | h
      · exact Or.inr (h ▸ List.mem_cons_self _ _)
      · rcases ih h with h2 | h2
        · exact Or.inl h2
        · exact Or.inr (List.mem_cons_of_mem _ h2)

theorem pyInsert_keysUnique {β : Type} (m : List (String × β)) (k : String) (v : β)
    (hm : keysUnique m) : keysUnique (pyInsert m k v) := by
  induction m with
  | nil => simp [pyInsert, keysUnique]
  | cons p rest ih =>
    rw [keysUnique, List.pairwise_cons] at hm
    obtain ⟨hp, hrest⟩ := hm
    rw [pyInsert]
    by_cases hpk : p.1 = k
    · rw [if_pos hpk]
      rw [keysUnique, List.pairwise_cons]
      exact ⟨fun q hq => hpk ▸ hp q hq, hrest⟩
    · rw [if_neg hpk]
      rw [keysUnique, List.pairwise_cons]
      constructor
      · intro q hq
        rcases pyInsert_mem_cases _ _ _ _ hq with h | h
        · rw [h]; exact hpk
        · exact hp q h
      · exact ih hrest

theorem envFold_keysUnique (env : List EnvEntry) (acc : List (String × String))
    (h : keysUnique acc) :
    keysUnique (env.foldl (fun acc e =>
      if envTruthy e.name && envTruthy e.value then
        pyInsert acc (e.name.getD "") (e.value.getD "")
      else acc) acc) := by
  induction env generalizing acc with
  | nil => exact h
  | cons e rest ih =>
    rw [List.foldl_cons]
    by_cases he : (envTruthy e.name && envTruthy e.value) = true
    · rw [if_pos he]
      exact ih _ (pyInsert_keysUnique _ _ _ h)
    · rw [if_neg he]
      exact ih _ h

theorem extractDirect_keysUnique (ecsData : List (String × ContainerVal))
    (serviceName : String) :
    keysUnique (extractContainerEnvValuesDirect ecsData serviceName) := by
  unfold extractContainerEnvValuesDirect
  have main : ∀ (data : List (String × ContainerVal)) (acc : List (String × String)),
      keysUnique acc →
      keysUnique (data.foldl (fun envValues kv =>
        if strContains kv.1 serviceName && strContains kv.1 "container_definition" then
          kv.2.environment.foldl (fun acc e =>
            if envTruthy e.name && envTruthy e.value then
              pyInsert acc (e.name.getD "") (e.value.getD "")
            else acc) envValues
        else envValues) acc) := by
    intro data
    induction data with
    | nil => intro acc h; exact h
    | cons kv rest ih =>
      intro acc h
      rw [List.foldl_cons]
      by_cases hk : (strContains kv.1 serviceName && strContains kv.1 "container_definition") = true
      · rw [if_pos hk]
        exact ih _ (envFold_keysUnique _ _ h)
      · rw [if_neg hk]
        exact ih _ h
  exact main ecsData [] (by rw [keysUnique]; exact List.Pairwise.nil)

theorem pyLookup_none_of_forall_ne {β : Type} (m : List (String × β)) (n : String)
    (h : ∀ q ∈ m, q.1 ≠ n) : pyLookup m n = none := by
  induction m with
  | nil => rfl
  | cons p rest ih =>
    rw [pyLookup, if_neg (h p (List.mem_cons_self _ _))]
    exact ih fun q hq => h q (List.mem_cons_of_mem _ hq)

theorem optOr_assoc {β : Type} (a b c : Option β) :
    optOr (optOr a b) c = optOr a (optOr b c) := by
  cases a <;> rfl

theorem optOr_none_right {β : Type} (a : Option β) : optOr a none = a := by
  cases a <;> rfl

theorem firstSome_append {α β : Type} (f : α → Option β) (l1 l2 : List α) :
    firstSome f (l1 ++ l2) = optOr (firstSome f l1) (firstSome f l2) := by
  induction l1 with
  | nil => rfl
  | cons a rest ih =>
    rw [List.cons_append]
    cases hf : f a <;> simp [firstSome, hf, ih, optOr]

theorem pyLookup_pyUpdate {β : Type} (a b : List (String × β)) (n : String)
    (hb : keysUnique b) :
    pyLookup (pyUpdate a b) n = optOr (pyLookup b n) (pyLookup a n) := by
  induction b generalizing a with
  | nil => simp [pyUpdate, pyLookup, optOr]
  | cons p bs ih =>
    rw [keysUnique, List.pairwise_cons] at hb
    obtain ⟨hp, hbs⟩ := hb
    have hstep : pyUpdate a (p :: bs) = pyUpdate (pyInsert a p.1 p.2) bs := rfl
    rw [hstep, ih _ hbs]
    by_cases hn : n = p.1
    · have hbsnone : pyLookup bs n = none :=
        pyLookup_none_of_forall_ne _ _ fun q hq => fun hc => hp q hq (hn ▸ hc.symm ▸ rfl)
      rw [hbsnone]
      rw [hn, pyLookup_pyInsert_self]
      rw [pyLookup, if_pos rfl]
      rfl
    · rw [pyLookup_pyInsert_ne _ _ _ _ hn]
      rw [pyLookup, if_neg (fun hc => hn hc.symm)]

theorem mergedEnv_lookup (ecsData : List (String × ContainerVal))
    (serviceNames : List String) (n : String) :
    pyLookup (mergedEnv ecsData serviceNames) n
      = firstSome (fun s => pyLookup (extractContainerEnvValuesDirect ecsData s) n)
          serviceNames.reverse := by
  have general : ∀ (svcs : List String) (acc : List (String × String)),
      pyLookup (svcs.foldl
          (fun acc svc => pyUpdate acc (extractContainerEnvValuesDirect ecsData svc)) acc) n
        = optOr (firstSome (fun s => pyLookup (extractContainerEnvValuesDirect ecsData s) n)
            svcs.reverse) (pyLookup acc n) := by
    intro svcs
    induction svcs with
    | nil => intro acc; rfl
    | cons s ss ih =>
      intro acc
      rw [List.foldl_cons, ih, List.reverse_cons, firstSome_append,
        pyLookup_pyUpdate _ _ _ (extractDirect_keysUnique ecsData s)]
      have hs : firstSome (fun t => pyLookup (extractContainerEnvValuesDirect ecsData t) n) [s]
          = pyLookup (extractContainerEnvValuesDirect ecsData s) n := by
        cases h : pyLookup (extractContainerEnvValuesDirect ecsData s) n <;>
          simp [firstSome, h]
      rw [hs, optOr_assoc]
  rw [mergedEnv, general serviceNames []]
  rw [show pyLookup ([] : List (String × String)) n = none from rfl, optOr_none_right]

theorem insertGlobalEnv_cons (st : Store) (p : String × String)
    (ps : List (String × String)) :
    insertGlobalEnv st (p :: ps) = insertGlobalEnv (stepGlobalEnv st p) ps := rfl

theorem insertGlobalEnv_preserves (pairs : List (String × String)) (k : String)
    (e : VarEntry) :
    ∀ store : Store, pyLookup store k = some e →
      pyLookup (insertGlobalEnv store pairs) k = some e := by
  induction pairs with
  | nil => intro store h; exact h
  | cons p ps ih =>
    intro store h
    rw [insertGlobalEnv_cons]
    apply ih
    rw [stepGlobalEnv]
    by_cases h1 : p.1 = "REGION"
    · rw [if_pos h1]; exact h
    · rw [if_neg h1]
      by_cases h2 : (pyLookup store (tfVarName p.1)).isSome
      · rw [if_pos h2]; exact h
      · rw [if_neg h2]
        have hne : k ≠ tfVarName p.1 := by
          intro hc
          rw [← hc, h] at h2
          exact h2 rfl
        rw [pyLookup_pyInsert_ne _ _ _ _ hne]
        exact h

theorem insertGlobalEnv_filter_region (pairs : List (String × String)) :
    ∀ store : Store,
      insertGlobalEnv store pairs
        = insertGlobalEnv store (pairs.filter (fun p => p.1 != "REGION")) := by
  induction pairs with
  | nil => intro store; rfl
  | cons p ps ih =>
    intro store
    rw [insertGlobalEnv_cons, List.filter_cons]
    by_cases h1 : p.1 = "REGION"
    · have hb : (p.1 != "REGION") = false := by simp [h1]
      rw [hb]
      have hstep : stepGlobalEnv store p = store := by rw [stepGlobalEnv, if_pos h1]
      rw [hstep]
      exact ih store
    · have hb : (p.1 != "REGION") = true := by simp [h1]
      rw [hb]
      rw [if_pos rfl]
      rw [insertGlobalEnv_cons]
      exact ih (stepGlobalEnv store p)

theorem insertGlobalEnv_lookup_untouched (ps : List (String × String)) (k : String) :
    ∀ st : Store, (∀ q ∈ ps, tfVarName q.1 ≠ k) →
      pyLookup (insertGlobalEnv st ps) k = pyLookup st k := by
  induction ps with
  | nil => intro st _; rfl
  | cons p ps ih =>
    intro st h
    rw [insertGlobalEnv_cons]
    rw [ih _ (fun q hq => h q (List.mem_cons_of_mem _ hq))]
    rw [stepGlobalEnv]
    by_cases h1 : p.1 = "REGION"
    · rw [if_pos h1]
    · rw [if_neg h1]
      by_cases h2 : (pyLookup st (tfVarName p.1)).isSome
      · rw [if_pos h2]
      · rw [if_neg h2]
        exact pyLookup_pyInsert_ne _ _ _ _ fun hc => h p (List.mem_cons_self _ _) hc.symm

theorem insertGlobalEnv_lookup_new (pairs : List (String × String)) (n v : String)
    (hreg : n ≠ "REGION") :
    ∀ store : Store,
      pairs.Pairwise (fun p q => tfVarName p.1 ≠ tfVarName q.1) →
      (n, v) ∈ pairs →
      pyLookup store (tfVarName n) = none →
      pyLookup (insertGlobalEnv store pairs) (tfVarName n) = some (globalEnvEntry n v) := by
  induction pairs with
  | nil => intro store _ hmem _; cases hmem
  | cons p ps ih =>
    intro store hpw hmem hnone
    rw [List.pairwise_cons] at hpw
    obtain ⟨hp, hps⟩ := hpw
    rw [insertGlobalEnv_cons]
    rcases List.mem_cons.mp hmem with heq | hmem2
    · have hpn : p = (n, v) := heq.symm
      subst hpn
      have hstep : stepGlobalEnv store (n, v)
          = pyInsert store (tfVarName n) (globalEnvEntry n v) := by
        rw [stepGlobalEnv, if_neg hreg]
        rw [show pyLookup store (tfVarName (n, v).1) = none from hnone]
        rfl
      rw [hstep]
      rw [insertGlobalEnv_lookup_untouched _ _ _ (fun q hq => (hp q hq).symm)]
      exact pyLookup_pyInsert_self _ _ _
    · refine ih _ hps hmem2 ?_
      rw [stepGlobalEnv]
      by_cases h1 : p.1 = "REGION"
      · rw [if_pos h1]; exact hnone
      · rw [if_neg h1]
        by_cases h2 : (pyLookup store (tfVarName p.1)).isSome
        · rw [if_pos h2]; exact hnone
        · rw [if_neg h2]
          rw [pyLookup_pyInsert_ne _ _ _ _ fun hc => hp (n, v) hmem2 hc.symm]
          exact hnone

/-- C5: in the global environment pass, (i) variables already present in
the flat mapping are never overwritten (first-writer-wins across passes);
(ii) pairs named `REGION` contribute nothing (filtering them away leaves
the pass unchanged); (iii) within the pass, for each environment-variable
name the value merged is the one from the LAST service contributing it
(later services overwrite earlier ones); (iv) every merged pair whose
derived name is not yet present (and is not `REGION`) becomes a stored
variable with its merged value. -/
theorem c5_global_environment_pass (ecsData : List (String × ContainerVal))
    (serviceNames : List String) (store : Store) :
    (∀ k e, pyLookup store k = some e →
        pyLookup (globalEnvPass ecsData serviceNames store) k = some e)
  ∧ (∀ pairs : List (String × String),
        insertGlobalEnv store pairs
          = insertGlobalEnv store (pairs.filter (fun p => p.1 != "REGION")))
  ∧ (∀ n, pyLookup (mergedEnv ecsData serviceNames) n
        = firstSome (fun s => pyLookup (extractContainerEnvValuesDirect ecsData s) n)
            serviceNames.reverse)
  ∧ (∀ n v, (mergedEnv ecsData serviceNames).Pairwise
          (fun p q => tfVarName p.1 ≠ tfVarName q.1) →
        (n, v) ∈ mergedEnv ecsData serviceNames → n ≠ "REGION" →
        pyLookup store (tfVarName n) = none →
        pyLookup (globalEnvPass ecsData serviceNames store) (tfVarName n)
          = some (globalEnvEntry n v)) := by
  refine ⟨?_, ?_, ?_, ?_⟩
  · intro k e h
    exact insertGlobalEnv_preserves _ _ _ _ h
  · intro pairs
    exact insertGlobalEnv_filter_region pairs store
  · intro n
    exact mergedEnv_lookup ecsData serviceNames n
  · intro n v hpw hmem hreg hnone
    exact insertGlobalEnv_lookup_new _ _ _ hreg _ hpw hmem hnone

/-- Witness for C5: a fresh container environment variable of a known
service is stored by the pass. -/
theorem c5_witness :
    pyLookup (globalEnvPass
        [("svc1/task_definition/container_definition/c",
          { environment := [{ name := some "FOO", value := some "bar" }] })]
        ["svc1"] []) (tfVarName "FOO")
      = some (globalEnvEntry "FOO" "bar") :=
  (c5_global_environment_pass
      [("svc1/task_definition/container_definition/c",
        { environment := [{ name := some "FOO", value := some "bar" }] })]
      ["svc1"] []).2.2.2 "FOO" "bar" (by decide) (by decide) (by decide) (by decide)

/-! ### `_parse_ecs_data` (the Loader) -/

/-- The state built by `_parse_ecs_data`: `self.services`,
`self.task_definitions`, `self.container_definitions`,
`self.cluster_name` (initially the empty string, which is falsy). -/
structure ParseState (α : Type) where
  services : List (String × α) := []
  taskDefs : List (String × α) := []
  containerDefs : List (String × α) := []
  clusterName : String := ""
  deriving Repr

/-- One iteration of the loop in `_parse_ecs_data` (lines 570-587),
translated clause by clause:
`key.split('/')[1]` is the head of the tail of the split,
`key.split('/')[0]` is the head of the split, and
`key.split('/', 1)` is the pair (chars before the first `/`, chars after
it). -/
def parseStep {α : Type} (st : ParseState α) (kv : String × α) : ParseState α :=
  if strContains kv.1 "container_definition" then
    { st with containerDefs := pyInsert st.containerDefs kv.1 kv.2 }
  else if strContains kv.1 "task_definition" then
    { st with
      clusterName :=
        if st.clusterName = "" then ⟨(splitList '/' kv.1.data).headD []⟩ else st.clusterName,
      taskDefs := pyInsert st.taskDefs
        (if strContains kv.1 "/" then ⟨((splitList '/' kv.1.data).drop 1).headD []⟩
         else pyReplace kv.1 "/task_definition" "") kv.2 }
  else if strContains kv.1 "/" then
    { st with
      clusterName :=
        if st.clusterName = "" then ⟨kv.1.data.takeWhile (fun c => c != '/')⟩
        else st.clusterName,
      services := pyInsert st.services
        ⟨(kv.1.data.dropWhile (fun c => c != '/')).drop 1⟩ kv.2 }
  else st

/-- `_parse_ecs_data`: fold the classification over the raw mapping. -/
def parseEcsData {α : Type} (ecsData : List (String × α)) : ParseState α :=
  ecsData.foldl parseStep {}

/-- Claim C6's wording for the no-`/` task-definition key: the key with the
fixed suffix `/task_definition` stripped. -/
def stripSuffixSpec (k suf : String) : String :=
  if suf.data.isSuffixOf k.data then ⟨k.data.take (k.data.length - suf.data.length)⟩ else k

/-- Claim C6's wording: the first `/`-segment of a key. -/
def claimFirstSegment (k : String) : String :=
  ⟨(splitList '/' k.data).headD []⟩

/-- Claim C6's wording: the second `/`-segment of a key. -/
def claimSecondSegment (k : String) : String :=
  ⟨(splitList '/' k.data).getD 1 []⟩

/-- Claim C6's wording: the remainder of the key after the first
`/`-segment (and the `/` that follows it). -/
def claimRemainder (k : String) : String :=
  ⟨k.data.drop ((claimFirstSegment k).data.length + 1)⟩

/-- Claim C6, as a single classification step: container keys stored under
their full key; task-definition keys keyed by the second `/`-segment (or
the suffix-stripped key when there is no `/`), setting the cluster name
from the first `/`-segment if not already set; other keys with a `/` yield
a service record named by the remainder after the first segment
(first-seen cluster name winning); other keys are skipped. -/
def claimParseStep {α : Type} (st : ParseState α) (kv : String × α) : ParseState α :=
  if strContains kv.1 "container_definition" then
    { st with containerDefs := pyInsert st.containerDefs kv.1 kv.2 }
  else if strContains kv.1 "task_definition" then
    { st with
      clusterName :=
        if st.clusterName = "" then claimFirstSegment kv.1 else st.clusterName,
      taskDefs := pyInsert st.taskDefs
        (if strContains kv.1 "/" then claimSecondSegment kv.1
         else stripSuffixSpec kv.1 "/task_definition") kv.2 }
  else if strContains kv.1 "/" then
    { st with
      clusterName :=
        if st.clusterName = "" then claimFirstSegment kv.1 else st.clusterName,
      services := pyInsert st.services (claimRemainder kv.1) kv.2 }
  else st

/-- The cluster-name candidate a single classified key contributes
(container-definition keys contribute none). -/
def clusterCandidate (k : String) : Option String :=
  if strContains k "container_definition" then none
  else if strContains k "task_definition" then some ⟨(splitList '/' k.data).headD []⟩
  else if strContains k "/" then some ⟨k.data.takeWhile (fun c => c != '/')⟩
  else none

/-! ### Helper lemmas for C6 and C8 -/

theorem mem_of_isPrefixOf {c : Char} : ∀ {p l : List Char},
    p.isPrefixOf l = true → c ∈ p → c ∈ l := by
  intro p
  induction p with
  | nil => intro l _ hc; cases hc
  | cons a as ih =>
    intro l hp hc
    cases l with
    | nil => simp [List.isPrefixOf] at hp
    | cons b bs =>
      rw [List.isPrefixOf, Bool.and_eq_true] at hp
      obtain ⟨hab, hrest⟩ := hp
      have hab2 : a = b := by simpa using hab
      rcases List.mem_cons.mp hc with h | h
      · exact h ▸ hab2 ▸ List.mem_cons_self _ _
      · exact List.mem_cons_of_mem _ (ih hrest h)

theorem mem_of_isSuffixOf {c : Char} {s l : List Char}
    (hp : s.isSuffixOf l = true) (hc : c ∈ s) : c ∈ l := by
  rw [List.isSuffixOf] at hp
  have := mem_of_isPrefixOf hp (List.mem_reverse.mpr hc)
  exact List.mem_reverse.mp this

theorem slash_not_mem_of_strContains_false (k : String)
    (h : strContains k "/" = false) : '/' ∉ k.data := by
  have main : ∀ l : List Char,
      ((suffixesOf l).any fun t => ['/'].isPrefixOf t) = false → '/' ∉ l := by
    intro l
    induction l with
    | nil => intro _ hc; cases hc
    | cons x rest ih =>
      intro hfold hc
      rw [suffixesOf, List.any_cons, Bool.or_eq_false_iff] at hfold
      obtain ⟨hhead, htail⟩ := hfold
      rcases List.mem_cons.mp hc with hx | hx
      · rw [← hx] at hhead
        simp [List.isPrefixOf] at hhead
      · exact ih htail hx
  exact main k.data h

theorem replaceFuel_slash_id (ps repl : List Char) :
    ∀ (fuel : Nat) (l : List Char), '/' ∉ l →
      replaceFuel ('/' :: ps) repl fuel l = l := by
  intro fuel
  induction fuel with
  | zero => intro l _; cases l <;> rfl
  | succ f ih =>
    intro l h
    cases l with
    | nil => rfl
    | cons c rest =>
      rw [replaceFuel]
      have hc : c ≠ '/' := fun hcc => h (hcc ▸ List.mem_cons_self c rest)
      have hpre : (('/' :: ps).isPrefixOf (c :: rest)) = false := by
        have hbc : ('/' == c) = false := beq_eq_false_iff_ne.mpr (Ne.symm hc)
        simp [List.isPrefixOf, hbc]
      rw [if_neg (by simp [hpre])]
      rw [ih rest (fun hr => h (List.mem_cons_of_mem _ hr))]

theorem pyReplace_taskdef_id (k : String) (h : '/' ∉ k.data) :
    pyReplace k "/task_definition" "" = k := by
  have h1 : pyReplace k "/task_definition" ""
      = ⟨replaceFuel ("/task_definition" : String).data ("" : String).data
          k.data.length k.data⟩ := rfl
  rw [h1]
  have h2 : ("/task_definition" : String).data = '/' :: ("task_definition" : String).data := by
    decide
  rw [h2]
  rw [replaceFuel_slash_id _ _ _ _ h]

theorem stripSuffix_taskdef_id (k : String) (h : '/' ∉ k.data) :
    stripSuffixSpec k "/task_definition" = k := by
  rw [stripSuffixSpec]
  rw [if_neg (fun hsuf => h (mem_of_isSuffixOf hsuf
    (show '/' ∈ ("/task_definition" : String).data by decide)))]

theorem splitList_ne_nil (sep : Char) (l : List Char) : splitList sep l ≠ [] := by
  cases l with
  | nil => simp [splitList]
  | cons c rest =>
    rw [splitList]
    by_cases h : c = sep
    · simp [h]
    · rw [if_neg h]
      cases hsp : splitList sep rest <;> simp

theorem splitList_headD (sep : Char) (l : List Char) :
    (splitList sep l).headD [] = l.takeWhile (fun c => c != sep) := by
  induction l with
  | nil => rfl
  | cons c rest ih =>
    rw [splitList]
    by_cases h : c = sep
    · rw [if_pos h]
      have hb : (c != sep) = false := by simp [h]
      simp [List.takeWhile_cons, hb]
    · rw [if_neg h]
      cases hsp : splitList sep rest with
      | nil => exact absurd hsp (splitList_ne_nil sep rest)
      | cons a as =>
        have ha : a = rest.takeWhile (fun c => c != sep) := by
          rw [← ih, hsp]
          rfl
        have hb : (c != sep) = true := bne_iff_ne.mpr h
        show (c :: a) = (c :: rest).takeWhile (fun x => x != sep)
        rw [List.takeWhile_cons, if_pos hb, ← ha]

theorem getD_one {γ : Type} (l : List (List γ)) : l.getD 1 [] = (l.drop 1).headD [] := by
  cases l with
  | nil => rfl
  | cons a as => cases as <;> rfl

theorem dropWhile_drop_eq (sep : Char) (l : List Char) :
    (l.dropWhile (fun c => c != sep)).drop 1
      = l.drop ((l.takeWhile (fun c => c != sep)).length + 1) := by
  induction l with
  | nil => rfl
  | cons c rest ih =>
    by_cases h : (c != sep) = true
    · rw [List.dropWhile_cons, if_pos h, List.takeWhile_cons, if_pos h,
        List.length_cons, List.drop_succ_cons]
      exact ih
    · rw [List.dropWhile_cons, if_neg (by simpa using h), List.takeWhile_cons,
        if_neg (by simpa using h)]
      rfl

theorem parseStep_eq_claim {α : Type} (st : ParseState α) (kv : String × α) :
    parseStep st kv = claimParseStep st kv := by
  rw [parseStep, claimParseStep]
  by_cases h1 : strContains kv.1 "container_definition" = true
  · rw [if_pos h1, if_pos h1]
  · rw [if_neg h1, if_neg h1]
    by_cases h2 : strContains kv.1 "task_definition" = true
    · rw [if_pos h2, if_pos h2]
      have hkey : (if strContains kv.1 "/"
            then (⟨((splitList '/' kv.1.data).drop 1).headD []⟩ : String)
            else pyReplace kv.1 "/task_definition" "")
          = (if strContains kv.1 "/" then claimSecondSegment kv.1
             else stripSuffixSpec kv.1 "/task_definition") := by
        by_cases h3 : strContains kv.1 "/" = true
        · rw [if_pos h3, if_pos h3]
          exact congrArg (fun l => (⟨l⟩ : String)) (getD_one (splitList '/' kv.1.data)).symm
        · rw [if_neg h3, if_neg h3]
          have hmem : '/' ∉ kv.1.data :=
            slash_not_mem_of_strContains_false kv.1 (Bool.not_eq_true _ ▸ h3)
          rw [pyReplace_taskdef_id _ hmem, stripSuffix_taskdef_id _ hmem]
      rw [hkey]
      rfl
    · rw [if_neg h2, if_neg h2]
      by_cases h3 : strContains kv.1 "/" = true
      · rw [if_pos h3, if_pos h3]
        have hseg : (⟨kv.1.data.takeWhile (fun c => c != '/')⟩ : String)
            = claimFirstSegment kv.1 :=
          congrArg (fun l => (⟨l⟩ : String)) (splitList_headD '/' kv.1.data).symm
        have hrem : (⟨(kv.1.data.dropWhile (fun c => c != '/')).drop 1⟩ : String)
            = claimRemainder kv.1 := by
          have hlen : (claimFirstSegment kv.1).data.length
              = (kv.1.data.takeWhile (fun c => c != '/')).length := by
            rw [show (claimFirstSegment kv.1).data
                = (splitList '/' kv.1.data).headD [] from rfl]
            rw [splitList_headD]
          rw [show claimRemainder kv.1
              = (⟨kv.1.data.drop ((claimFirstSegment kv.1).data.length + 1)⟩ : String) from rfl]
          rw [hlen]
          exact congrArg (fun l => (⟨l⟩ : String)) (dropWhile_drop_eq '/' kv.1.data)
        rw [hrem, hseg]
      · rw [if_neg h3, if_neg h3]

/-- C6: the Loader classifies every key of the raw configuration mapping
exactly as the claim describes: container-definition keys are stored under
their full key; otherwise task-definition keys are stored under the second
`/`-segment (or the suffix-stripped key, identical to the key itself, when
there is no `/`), setting the cluster name from the first `/`-segment if
not already set; otherwise keys with a `/` yield a service record named by
the remainder after the first `/`-segment with the first-seen cluster name
winning; and service-branch keys without a `/` are silently skipped. -/
theorem c6_loader_classification {α : Type} (ecsData : List (String × α)) :
    parseEcsData ecsData = ecsData.foldl claimParseStep {} := by
  rw [parseEcsData]
  apply List.foldl_ext
  intro st kv _
  exact parseStep_eq_claim st kv

theorem cluster_if_lemma (stcl seg : String) (restList : List String) :
    (if (if stcl = "" then seg else stcl) = ""
     then (restList.filter (fun s => s != "")).headD ""
     else (if stcl = "" then seg else stcl))
      = (if stcl = ""
         then (((seg :: restList)).filter (fun s => s != "")).headD ""
         else stcl) := by
  by_cases hcl : stcl = ""
  · by_cases hseg : seg = "" <;> simp [hcl, hseg, List.filter_cons]
  · simp [hcl]

theorem parse_cluster_general {α : Type} (ecsData : List (String × α)) :
    ∀ st : ParseState α,
      (ecsData.foldl parseStep st).clusterName
        = if st.clusterName = ""
          then (((ecsData.map (fun kv => kv.1)).filterMap clusterCandidate).filter
              (fun s => s != "")).headD ""
          else st.clusterName := by
  induction ecsData with
  | nil =>
    intro st
    by_cases h : st.clusterName = "" <;> simp [h]
  | cons kv rest ih =>
    intro st
    rw [List.foldl_cons, ih]
    by_cases h1 : strContains kv.1 "container_definition" = true
    · have hst : (parseStep st kv).clusterName = st.clusterName := by
        rw [parseStep, if_pos h1]
      have hcand : clusterCandidate kv.1 = none := by
        rw [clusterCandidate, if_pos h1]
      rw [hst, List.map_cons, List.filterMap_cons_none hcand]
    · by_cases h2 : strContains kv.1 "task_definition" = true
      · have hst : (parseStep st kv).clusterName
            = (if st.clusterName = ""
               then (⟨(splitList '/' kv.1.data).headD []⟩ : String)
               else st.clusterName) := by
          rw [parseStep, if_neg h1, if_pos h2]
        have hcand : clusterCandidate kv.1
            = some ⟨(splitList '/' kv.1.data).headD []⟩ := by
          rw [clusterCandidate, if_neg h1, if_pos h2]
        rw [hst, List.map_cons, List.filterMap_cons_some hcand]
        exact cluster_if_lemma st.clusterName _ _
      · by_cases h3 : strContains kv.1 "/" = true
        · have hst : (parseStep st kv).clusterName
              = (if st.clusterName = ""
                 then (⟨kv.1.data.takeWhile (fun c => c != '/')⟩ : String)
                 else st.clusterName) := by
            rw [parseStep, if_neg h1, if_neg h2, if_pos h3]
          have hcand : clusterCandidate kv.1
              = some ⟨kv.1.data.takeWhile (fun c => c != '/')⟩ := by
            rw [clusterCandidate, if_neg h1, if_neg h2, if_pos h3]
          rw [hst, List.map_cons, List.filterMap_cons_some hcand]
          exact cluster_if_lemma st.clusterName _ _
        · have hst : parseStep st kv = st := by
            rw [parseStep, if_neg h1, if_neg h2, if_neg h3]
          have hcand : clusterCandidate kv.1 = none := by
            rw [clusterCandidate, if_neg h1, if_neg h2, if_neg h3]
          rw [hst, List.map_cons, List.filterMap_cons_none hcand]

/-- C8 counterexample: the first classified key of this input is a
container-definition key (first `/`-segment `alpha`), yet the run's
cluster name is `beta`, taken from the later service key: the cluster name
is NOT taken from the first classified key. -/
theorem c8_counterexample :
    (parseEcsData [("alpha/s1/task_definition/container_definition/c1", 0),
                   ("beta/svc", 0)]).clusterName = "beta"
  ∧ strContains "alpha/s1/task_definition/container_definition/c1" "container_definition" = true
  ∧ (⟨(splitList '/'
        ("alpha/s1/task_definition/container_definition/c1" : String).data).headD []⟩ : String)
      = "alpha"
  ∧ ("beta" : String) ≠ "alpha" := by
  refine ⟨by decide, by decide, by decide, by decide⟩

/-- C8 (amended): the cluster name is taken from the first classified key
that both lies in the task-definition or service branch (container-
definition keys never contribute) and has a non-empty first `/`-segment;
it is the empty string (no cluster) when no such key exists.  All services
and task definitions of the run are attributed to the single cluster
field. -/
theorem c8_cluster_identity_amended {α : Type} (ecsData : List (String × α)) :
    (parseEcsData ecsData).clusterName
      = (((ecsData.map (fun kv => kv.1)).filterMap clusterCandidate).filter
          (fun s => s != "")).headD "" := by
  rw [parseEcsData, parse_cluster_general]
  rfl

/-! ### The Categorizer (`generate_workspace_vars` lines 1483-1535 and the
identical logic of `generate_variables_tf` lines 1306-1341)

`categorize` models the classification of one variable (its name and its
source tag) given the service map's keys: the bucket it lands in, or
`none` when it is dropped (`region`). -/

/-- The buckets of the Categorizer.  A service bucket carries the matched
(sanitized) service name and the name the variable is stored under. -/
inductive Bucket where
  | service (svc : String) (storedName : String)
  | container
  | monitoring
  | infrastructure
  | application
  deriving DecidableEq, Repr

/-- The service-matching loop (`for svc_name in self.services.keys(): ...
break`): the sanitized name of the first service whose sanitized name plus
underscore prefixes the variable name. -/
def findServiceMatch : List String → String → Option String
  | [], _ => none
  | svc :: rest, name =>
    if pyStartsWith name (sanitize svc ++ "_") then some (sanitize svc)
    else findServiceMatch rest name

/-- The Categorizer's per-variable classification, translated from the
source (the two generator functions share it verbatim; the stored name in
the service bucket is `var_name.replace(f"{service_match}_", "")`). -/
def categorize (services : List String) (name source : String) : Option Bucket :=
  if name = "region" then none
  else
    match findServiceMatch services name with
    | some svc => some (.service svc (pyReplace name (svc ++ "_") ""))
    | none =>
      if pyStartsWith source "Container:" then some .container
      else if pyStartsWith name "dt_" || strContains (pyLower name) "dynatrace" then
        some .monitoring
      else if name ∈ ["cluster_name", "primary_region", "secondary_region",
          "environment", "app_shortname"] then some .infrastructure
      else if pyStartsWith name "app_" || name ∈ ["private_bucket", "spring_profiles_active",
          "java_tool_options", "sm_ssl", "tw_container_name"] then some .application
      else some .infrastructure

/-- Claim C7's wording for the stored name: the matched prefix STRIPPED
from the variable name (drop the leading prefix only). -/
def dropPrefixSpec (name p : String) : String :=
  ⟨name.data.drop p.data.length⟩

/-- Claim C7 taken literally: same priority order, with the service
bucket's stored name being the prefix-stripped variable name. -/
def claimCategorizeLiteral (services : List String) (name source : String) : Option Bucket :=
  if name = "region" then none
  else
    match services.find? (fun t => pyStartsWith name (sanitize t ++ "_")) with
    | some svc => some (.service (sanitize svc) (dropPrefixSpec name (sanitize svc ++ "_")))
    | none =>
      if pyStartsWith source "Container:" then some .container
      else if pyStartsWith name "dt_" || strContains (pyLower name) "dynatrace" then
        some .monitoring
      else if name ∈ ["cluster_name", "primary_region", "secondary_region",
          "environment", "app_shortname"] then some .infrastructure
      else if pyStartsWith name "app_" || name ∈ ["private_bucket", "spring_profiles_active",
          "java_tool_options", "sm_ssl", "tw_container_name"] then some .application
      else some .infrastructure

/-- Claim C7 as amended: the stored name removes EVERY occurrence of the
matched `{sanitized_service}_` prefix string from the variable name
(Python `str.replace`), not just the leading one. -/
def claimCategorizeAmended (services : List String) (name source : String) : Option Bucket :=
  if name = "region" then none
  else
    match services.find? (fun t => pyStartsWith name (sanitize t ++ "_")) with
    | some svc => some (.service (sanitize svc) (pyReplace name (sanitize svc ++ "_") ""))
    | none =>
      if pyStartsWith source "Container:" then some .container
      else if pyStartsWith name "dt_" || strContains (pyLower name) "dynatrace" then
        some .monitoring
      else if name ∈ ["cluster_name", "primary_region", "secondary_region",
          "environment", "app_shortname"] then some .infrastructure
      else if pyStartsWith name "app_" || name ∈ ["private_bucket", "spring_profiles_active",
          "java_tool_options", "sm_ssl", "tw_container_name"] then some .application
      else some .infrastructure

theorem findServiceMatch_eq (services : List String) (name : String) :
    findServiceMatch services name
      = (services.find? (fun t => pyStartsWith name (sanitize t ++ "_"))).map sanitize := by
  induction services with
  | nil => rfl
  | cons svc rest ih =>
    rw [findServiceMatch]
    by_cases h : pyStartsWith name (sanitize svc ++ "_") = true
    · have hf : List.find? (fun t => pyStartsWith name (sanitize t ++ "_")) (svc :: rest)
          = some svc := List.find?_cons_of_pos _ h
      rw [if_pos h, hf]
      rfl
    · have hf : List.find? (fun t => pyStartsWith name (sanitize t ++ "_")) (svc :: rest)
          = List.find? (fun t => pyStartsWith name (sanitize t ++ "_")) rest :=
        List.find?_cons_of_neg _ (by simpa using h)
      rw [if_neg h, hf]
      exact ih

/-- C7 counterexample: with a service named `a` and the variable `a_a_b`
(as arises from a container environment variable `A_A_B` of that service),
the code stores the name `b` (every occurrence of `a_` removed), while the
claim's literal prefix-stripping yields `a_b`. -/
theorem c7_counterexample :
    categorize ["a"] "a_a_b" "Service:serviceName" = some (.service "a" "b")
  ∧ claimCategorizeLiteral ["a"] "a_a_b" "Service:serviceName" = some (.service "a" "a_b")
  ∧ (Bucket.service "a" "b") ≠ (Bucket.service "a" "a_b") := by
  refine ⟨by decide, by decide, by decide⟩

/-- C7 (amended): the Categorizer assigns every variable to exactly one
bucket by first match in the claimed priority order — service-prefix match
(storing the name with every occurrence of the matched
`{sanitized_service}_` removed), `Container:` source, `dt_`/`dynatrace`
monitoring, the fixed infrastructure set, `app_`/application set,
infrastructure fallback — and the variable named `region` is dropped. -/
theorem c7_categorizer_amended (services : List String) (name source : String) :
    categorize services name source = claimCategorizeAmended services name source := by
  rw [categorize, claimCategorizeAmended]
  by_cases h0 : name = "region"
  · rw [if_pos h0, if_pos h0]
  · rw [if_neg h0, if_neg h0]
    rw [findServiceMatch_eq]
    cases h : services.find? (fun t => pyStartsWith name (sanitize t ++ "_")) with
    | none => rfl
    | some svc => rfl
